import Mathlib

/-!
Verification of the `destined` filesystem-utility library (src/fs.js).

The library wraps node's callback-style `fs` API in fluture Futures: lazily
started, cancellable computations that settle on exactly one of a success
or a failure channel (fluture additionally has a third, "crash" outcome for
exceptions thrown inside combinator callbacks; plain `fork` rethrows those,
only `forkCatch` can observe them).

Shallow embedding used here:

* The platform filesystem (an external collaborator) is a state `FS`:
  a list of existing directory paths plus an association list from file
  paths to their (utf8) contents.  Paths are modelled as the normalized
  relative path strings the repository's own tests use.
* A sequential Future (every composition in the source except `findFile`
  is sequential: `chain` / `chainRej` / `map`) is a state transformer
  `FutS α = FS → Outcome α × FS` where `Outcome` has the three fluture
  channels: `ok` (resolution), `rejected` (rejection), `crashed`
  (exception thrown inside a combinator callback).
* `findFile` combines its candidate probes with fluture's `race`, whose
  result depends on which probe settles first in real time.  Races of
  read-only probes are modelled by `TFut`: a settle time (drawn from a
  latency oracle, one admissible schedule of the event loop) together
  with the settled result; `race` keeps the earlier settler, ties going
  to the left operand (the one whose callbacks were registered first).
* Cancellation hooks are threaded (`Cancel`) but have no observable
  semantics in this model; every claim under verification runs the
  `NO_OP`-cancellation entry points.
-/

namespace Destined

/-- JavaScript primitive values as they occur in the library's
configuration objects and failure channel (ramda's `F` rejects with the
boolean `false`). -/
inductive JsVal where
  | nullv
  | b (x : Bool)
  | n (x : Int)
  | s (x : String)
deriving DecidableEq, Repr

/-- Values travelling on a Future's failure (or crash) channel: errors of
the underlying platform calls (carrying an errno-style code and the
offending path), `TypeError`s, parse errors thrown by the JSON parser, and
plain JavaScript values (ramda's `F` turns every rejection into the
boolean `false`). -/
inductive JsErr where
  | fsErr (code : String) (path : String)
  | typeErr (msg : String)
  | parseErr (msg : String)
  | jsBool (x : Bool)
deriving DecidableEq, Repr

/-- Configuration objects are JavaScript objects with primitive values:
an association list of key/value pairs (keys unique, first match wins). -/
abbrev Conf := List (String × JsVal)

/-- Property lookup on a configuration object. -/
def confLookup (k : String) (c : Conf) : Option JsVal :=
  c.lookup k

/-- Read a boolean option (absent or non-boolean options read as the
falsy default, which is how the wrapped calls treat them). -/
def confBool (k : String) (c : Conf) : Bool :=
  match confLookup k c with
  | some (.b x) => x
  | _ => false

/-- Embedding of ramda's `propOr(d, k, c)`: the value of property `k`
when present, otherwise the default `d`. -/
def ramdaPropOr (d : JsVal) (k : String) (c : Conf) : JsVal :=
  match confLookup k c with
  | some v => v
  | none => d

/-- Embedding of ramda's `without(xs, target)` applied to a plain object.
Ramda defines `without = reject(flip(includes)(xs))`, and ramda's
`filter`/`reject` on a non-array object keep or drop its key/value pairs
according to the predicate applied to each VALUE.  Consequently
`without([k], conf)` drops the entries of `conf` whose value occurs in
`xs`; it does not remove the key named `k`. -/
def ramdaWithoutObj (xs : List JsVal) (c : Conf) : Conf :=
  c.filter (fun kv => !(xs.contains kv.2))

/-- Model of the platform filesystem: the set of existing directories and
the existing files with their contents.  Paths are normalized relative
path strings (the form the repository's tests use); the current working
directory itself is always present and is not listed. -/
structure FS where
  dirs : List String
  files : List (String × String)
deriving DecidableEq, Repr

/-- Filesystem with no directories and no files (beyond the implicit
current working directory). -/
def emptyFS : FS := ⟨[], []⟩

/-- Contents of a file, when present. -/
def fileContents (st : FS) (p : String) : Option String :=
  st.files.lookup p

/-- Whether a file exists at path `p`. -/
def hasFileB (st : FS) (p : String) : Bool :=
  (fileContents st p).isSome

/-- Predicate selecting the file-table entries whose key differs from
`p` (the entries a write or unlink at `p` leaves alone). -/
def keyNe (p : String) : String × String → Bool :=
  fun kv => kv.1 ≠ p

/-- Write (create or overwrite) the binding of `p` in a file table. -/
def setFileL (p c : String) (l : List (String × String)) : List (String × String) :=
  (p, c) :: l.filter (keyNe p)

/-- Filesystem after writing contents `c` at path `p`. -/
def setFile (st : FS) (p c : String) : FS :=
  { st with files := setFileL p c st.files }

/-- Filesystem after unlinking the file at path `p` (directories are
untouched). -/
def removeFileFS (st : FS) (p : String) : FS :=
  { st with files := st.files.filter (keyNe p) }

/-- Whether the path string contains a forward slash. -/
def hasSlash (p : String) : Bool :=
  p.data.any (fun c => c = '/')

/-- Index of the last forward slash of a character list, when one occurs
(the value of JavaScript's `lastIndexOf('/')` when it is not `-1`). -/
def lastSlashAux : List Char → Option Nat
  | [] => none
  | c :: rest =>
    match lastSlashAux rest with
    | some i => some (i + 1)
    | none => if c = '/' then some 0 else none

/-- Embedding of `directoryOnly` (src/fs.js):
`filePath.slice(0, filePath.lastIndexOf('/'))`.  When a slash occurs at
index `i`, `slice(0, i)` keeps the first `i` characters; when none
occurs, `lastIndexOf` is `-1` and `slice(0, -1)` drops the final
character. -/
def directoryOnly (filePath : String) : String :=
  match lastSlashAux filePath.data with
  | some i => String.mk (filePath.data.take i)
  | none => String.mk filePath.data.dropLast

/-- Whether the path string ends in a forward slash (such a path can name
a directory but not a writable file). -/
def hasTrailingSlash (p : String) : Bool :=
  match p.data.getLast? with
  | some c => c = '/'
  | none => false

/-- Parent directory of a normalized relative path as the platform
resolves it: the prefix before the last slash when one occurs (for these
paths this agrees with `directoryOnly`), and the implicit current working
directory (`none`) for a bare filename. -/
def parentOf (p : String) : Option String :=
  if hasSlash p then some (directoryOnly p) else none

/-- Fuelled chain of a path and its ancestors obtained by repeatedly
taking the prefix before the last slash. -/
def ancestorsFuel : Nat → String → List String
  | 0, p => [p]
  | Nat.succ fuel, p =>
    if hasSlash p then p :: ancestorsFuel fuel (directoryOnly p) else [p]

/-- A path together with all its ancestor directory paths (the chain
`mkdir -p` creates). -/
def ancestors (p : String) : List String :=
  ancestorsFuel p.data.length p

/-- Settled outcome of a fluture Future: resolution (`ok`), rejection
(`rejected`), or crash (`crashed`).  A crash happens when a callback
passed to a combinator throws; fluture does not route such exceptions to
the rejection channel — `fork` rethrows them and only `forkCatch` can
observe them. -/
inductive Outcome (α : Type) where
  | ok (a : α)
  | rejected (e : JsErr)
  | crashed (e : JsErr)
deriving DecidableEq, Repr

/-- Whether the outcome is a rejection (a settlement of the failure
channel that `fork`'s first continuation receives). -/
def Outcome.isRejected : Outcome α → Bool
  | .rejected _ => true
  | _ => false

/-- Whether the outcome is a crash. -/
def Outcome.isCrashed : Outcome α → Bool
  | .crashed _ => true
  | _ => false

/-- The error carried by a crash, when the outcome is one. -/
def Outcome.crashErr? : Outcome α → Option JsErr
  | .crashed e => some e
  | _ => none

/-- Sequential Future over the filesystem: running it from a state
produces a settled outcome and the state after its side effects.  The
state is returned on every channel because completed side effects are
never rolled back. -/
def FutS (α : Type) : Type := FS → Outcome α × FS

/-- Cancellation hooks are threaded but semantically inert here: every
composition under verification uses the no-op hook and never abandons a
sequential computation early. -/
abbrev Cancel := Unit

/-- Embedding of the library's `NO_OP` cancellation function. -/
def NO_OP : Cancel := ()

/-- Fluture's `chain f m`: run `m`, and only on resolution feed its value
to `f` and run the resulting Future; rejections and crashes propagate. -/
def chainF (f : α → FutS β) (m : FutS α) : FutS β := fun st =>
  match m st with
  | (.ok a, st') => f a st'
  | (.rejected e, st') => (.rejected e, st')
  | (.crashed e, st') => (.crashed e, st')

/-- Fluture's `chainRej f m`: run `m`, and only on rejection feed the
reason to `f` and run the fallback Future; resolutions and crashes
propagate. -/
def chainRejF (f : JsErr → FutS α) (m : FutS α) : FutS α := fun st =>
  match m st with
  | (.ok a, st') => (.ok a, st')
  | (.rejected e, st') => f e st'
  | (.crashed e, st') => (.crashed e, st')

/-- Fluture's `map f m` for a JavaScript function `f` that may throw
(modelled as returning `Except`, where `.error` is a thrown exception).
Fluture assumes mapped functions are pure and does not catch: a throw is
a crash of the Future, not a rejection. -/
def flutureMap (f : α → Except JsErr β) (m : FutS α) : FutS β := fun st =>
  match m st with
  | (.ok a, st') =>
    match f a with
    | .ok b => (.ok b, st')
    | .error e => (.crashed e, st')
  | (.rejected e, st') => (.rejected e, st')
  | (.crashed e, st') => (.crashed e, st')

/-- Embedding of `readFileWithFormatAndCancel` (src/fs.js line 72):
wraps `fs.readFile(x, format, cb)`; the error of the underlying call is
passed through unmodified.  Contents are modelled as the utf8-decoded
strings the claims exercise. -/
def readFileWithFormatAndCancel (cancel : Cancel) (format : String) (x : String) :
    FutS String := fun st =>
  if x ∈ st.dirs then (.rejected (.fsErr "EISDIR" x), st)
  else
    match fileContents st x with
    | some c => (.ok c, st)
    | none => (.rejected (.fsErr "ENOENT" x), st)

/-- Embedding of `readFileWithCancel` (src/fs.js line 80): the utf8
specialization. -/
def readFileWithCancel (cancel : Cancel) : String → FutS String :=
  readFileWithFormatAndCancel cancel "utf8"

/-- Embedding of `readFile` (src/fs.js line 81). -/
def readFile : String → FutS String :=
  readFileWithCancel NO_OP

/-- Embedding of `writeFileWithConfigAndCancel` (src/fs.js line 200):
wraps `fs.writeFile(file, content, conf, cb)` and, unlike the platform
call, resolves with the written CONTENT.  The write succeeds when the
target is a writable file path whose parent directory exists; the
platform errors (`ENOENT` missing parent, `EISDIR`/`ENOTDIR` unwritable
target) pass through unmodified. -/
def writeFileWithConfigAndCancel (cancel : Cancel) (conf : Conf)
    (file content : String) : FutS String := fun st =>
  if file = "" then (.rejected (.fsErr "ENOENT" file), st)
  else if hasTrailingSlash file then (.rejected (.fsErr "EISDIR" file), st)
  else if file ∈ st.dirs then (.rejected (.fsErr "EISDIR" file), st)
  else
    match parentOf file with
    | none => (.ok content, setFile st file content)
    | some d =>
      if hasFileB st d then (.rejected (.fsErr "ENOTDIR" file), st)
      else if d ∈ st.dirs then (.ok content, setFile st file content)
      else (.rejected (.fsErr "ENOENT" file), st)

/-- Embedding of `writeFileWithConfig` (src/fs.js line 235). -/
def writeFileWithConfig : Conf → String → String → FutS String :=
  writeFileWithConfigAndCancel NO_OP

/-- Embedding of `writeFile` (src/fs.js line 256): utf8 default. -/
def writeFile : String → String → FutS String :=
  writeFileWithConfig [("encoding", .s "utf8")]

/-- Embedding of `removeFileWithConfigAndCancel` (src/fs.js line 307):
wraps `fs.rm(fd, options, cb)` and resolves with the removed PATH.
Platform behavior: an existing file is unlinked; an existing directory
needs `recursive`; a missing path is an `ENOENT` rejection unless
`force` suppresses it (in which case the call succeeds while changing
nothing). -/
def removeFileWithConfigAndCancel (cancel : Cancel) (options : Conf)
    (fd : String) : FutS String := fun st =>
  if hasFileB st fd then (.ok fd, removeFileFS st fd)
  else if fd ∈ st.dirs then
    if confBool "recursive" options then
      (.ok fd, { st with dirs := st.dirs.filter (fun d => d ≠ fd) })
    else (.rejected (.fsErr "ERR_FS_EISDIR" fd), st)
  else if confBool "force" options then (.ok fd, st)
  else (.rejected (.fsErr "ENOENT" fd), st)

/-- Embedding of `removeFileWithConfig` (src/fs.js line 315). -/
def removeFileWithConfig : Conf → String → FutS String :=
  removeFileWithConfigAndCancel NO_OP

/-- Embedding of `DEFAULT_REMOVAL_CONFIG` (src/fs.js line 320). -/
def DEFAULT_REMOVAL_CONFIG : Conf :=
  [("force", .b false), ("maxRetries", .n 0), ("recursive", .b false),
   ("retryDelay", .n 100), ("parallel", .n 10)]

/-- Concurrency bound handed to fluture's `parallel` by the batch
removal: `propOr(10, 'parallel', conf)` (src/fs.js line 351). -/
def removalParallelism (conf : Conf) : JsVal :=
  ramdaPropOr (.n 10) "parallel" conf

/-- Linearized semantics of fluture's `parallel(limit)(futures)`: the
futures run with at most `limit` concurrently in flight; results are
collected in input order; the first rejection or crash settles the batch
as a whole and the outstanding futures are cancelled, while side effects
already performed stay performed.  This model runs one admissible
schedule — the futures in input order — which realizes exactly those
guarantees; the `limit` does not change which of them hold. -/
def parallelRun (limit : JsVal) : List (FutS α) → FutS (List α)
  | [] => fun st => (.ok [], st)
  | f :: fs => fun st =>
    match f st with
    | (.ok a, st') =>
      match parallelRun limit fs st' with
      | (.ok as, st'') => (.ok (a :: as), st'')
      | (.rejected e, st'') => (.rejected e, st'')
      | (.crashed e, st'') => (.crashed e, st'')
    | (.rejected e, st') => (.rejected e, st')
    | (.crashed e, st') => (.crashed e, st')

/-- Embedding of `removeFilesWithConfigAndCancel` (src/fs.js line 347):
`pipe(map(removeFileWithConfigAndCancel(cancel, without(['parallel'], conf))),
parallel(propOr(10, 'parallel', conf)))`. -/
def removeFilesWithConfigAndCancel (cancel : Cancel) (conf : Conf)
    (list : List String) : FutS (List String) :=
  parallelRun (removalParallelism conf)
    (list.map (removeFileWithConfigAndCancel cancel
      (ramdaWithoutObj [.s "parallel"] conf)))

/-- Embedding of `removeFilesWithConfig` (src/fs.js line 374). -/
def removeFilesWithConfig : Conf → List String → FutS (List String) :=
  removeFilesWithConfigAndCancel NO_OP

/-- Embedding of `mkdirWithCancel` (src/fs.js line 415): wraps
`fs.mkdir(x, conf, cb)` and resolves with the PATH.  With `recursive`
the platform creates the whole ancestor chain and tolerates existing
directories, but fails on the empty path (`ENOENT`) and when a link of
the chain exists as a file (`ENOTDIR`/`EEXIST`).  Without `recursive`
the parent must already exist and the target must not. -/
def mkdirWithCancel (cancel : Cancel) (conf : Conf) (x : String) :
    FutS String := fun st =>
  if x = "" then (.rejected (.fsErr "ENOENT" x), st)
  else if confBool "recursive" conf then
    if (ancestors x).any (fun d => hasFileB st d) then
      (.rejected (.fsErr "ENOTDIR" x), st)
    else (.ok x, { st with dirs := ancestors x ++ st.dirs })
  else if x ∈ st.dirs ∨ hasFileB st x then (.rejected (.fsErr "EEXIST" x), st)
  else
    match parentOf x with
    | none => (.ok x, { st with dirs := x :: st.dirs })
    | some d =>
      if d ∈ st.dirs then (.ok x, { st with dirs := x :: st.dirs })
      else (.rejected (.fsErr "ENOENT" x), st)

/-- Embedding of `mkdir` (src/fs.js line 443). -/
def mkdir : Conf → String → FutS String :=
  mkdirWithCancel NO_OP

/-- Embedding of `mkdirp` (src/fs.js line 464): `mkdir({recursive : true})`. -/
def mkdirp : String → FutS String :=
  mkdir [("recursive", .b true)]

/-- Embedding of `fs.constants.F_OK`. -/
def F_OK : Nat := 0

/-- Embedding of `fs.constants.R_OK`. -/
def R_OK : Nat := 4

/-- Embedding of `access` (src/fs.js line 466): wraps
`fs.access(filePath, permissions, cb)`, resolving with `true`.  The
model equates existence and readability (permission bits beyond
existence are not represented). -/
def access (permissions : Nat) (filePath : String) : FutS Bool := fun st =>
  if filePath ∈ st.dirs ∨ hasFileB st filePath then (.ok true, st)
  else (.rejected (.fsErr "ENOENT" filePath), st)

/-- Embedding of `exists` (src/fs.js line 473): `access(constants.F_OK)`.
Named with a suffix because `exists` clashes with Lean vocabulary. -/
def existsF : String → FutS Bool :=
  access F_OK

/-- Embedding of `readable` (src/fs.js line 474): `access(constants.R_OK)`. -/
def readable : String → FutS Bool :=
  access R_OK

/-- Coercion of a Future's success channel into the dynamic value type.
JavaScript is dynamically typed, so `chainRej` freely mixes a
`Future Bool` with a `Future String`; this adapter makes that mixing
typecheck in the embedding and has no behavioral content. -/
def asDyn (inj : α → JsVal) (m : FutS α) : FutS JsVal := fun st =>
  match m st with
  | (.ok a, st') => (.ok (inj a), st')
  | (.rejected e, st') => (.rejected e, st')
  | (.crashed e, st') => (.crashed e, st')

/-- Embedding of `writeFileWithAutoPath` (src/fs.js line 495):
derive `directoryOnly(filePath)`, probe it with `exists`, recover from a
failed probe by `mkdirp` of that same derived string, and then — whether
the directory pre-existed or was just created — write the file. -/
def writeFileWithAutoPath (filePath content : String) : FutS String :=
  chainF (fun _ => writeFile filePath content)
    (chainRejF (fun _ => asDyn JsVal.s (mkdirp (directoryOnly filePath)))
      (asDyn JsVal.b (existsF (directoryOnly filePath))))

/-- JSON values produced by the platform JSON parser. -/
inductive Json where
  | null
  | bool (x : Bool)
  | num (x : Int)
  | str (x : String)
  | arr (elems : List Json)
  | obj (members : List (String × Json))
deriving Repr

/-- Whitespace characters the JSON grammar skips. -/
def isJsonWs (c : Char) : Bool :=
  c = ' ' ∨ c = '\t' ∨ c = '\n' ∨ c = '\r'

/-- Drop leading JSON whitespace. -/
def skipWs (cs : List Char) : List Char :=
  cs.dropWhile isJsonWs

/-- Scan the remainder of a JSON string literal after its opening quote,
accumulating the characters seen so far (escape sequences, which none of
the exercised inputs contain, are outside the modelled subset). -/
def scanStrChars : List Char → List Char → Except JsErr (String × List Char)
  | [], _ => .error (.parseErr "Unterminated string in JSON")
  | c :: rest, acc =>
    if c = '"' then .ok (String.mk acc.reverse, rest)
    else if c = '\\' then .error (.parseErr "string escapes outside modelled subset")
    else scanStrChars rest (c :: acc)

/-- Numeric value of a decimal digit character. -/
def digitVal (c : Char) : Nat :=
  c.toNat - '0'.toNat

/-- Scan a run of decimal digits, folding them into an accumulator. -/
def scanDigits : List Char → Nat → Nat × List Char
  | [], acc => (acc, [])
  | c :: rest, acc =>
    if c.isDigit then scanDigits rest (acc * 10 + digitVal c)
    else (acc, c :: rest)

/-- Scan a JSON integer literal (the numeric subset the exercised inputs
use): an optional minus sign followed by at least one digit. -/
def scanNum : List Char → Except JsErr (Json × List Char)
  | '-' :: c :: rest =>
    if c.isDigit then
      match scanDigits (c :: rest) 0 with
      | (n, r) => .ok (.num (-(Int.ofNat n)), r)
    else .error (.parseErr "Unexpected token - in JSON")
  | c :: rest =>
    if c.isDigit then
      match scanDigits (c :: rest) 0 with
      | (n, r) => .ok (.num (Int.ofNat n), r)
    else .error (.parseErr "Unexpected token in JSON")
  | [] => .error (.parseErr "Unexpected end of JSON input")

mutual

/-- Recursive-descent parse of one JSON value (fuelled; the fuel bounds
nesting depth and is ample at input length plus one). -/
def parseVal : Nat → List Char → Except JsErr (Json × List Char)
  | 0, _ => .error (.parseErr "Maximum call stack size exceeded")
  | Nat.succ fuel, cs =>
    match skipWs cs with
    | 'n' :: 'u' :: 'l' :: 'l' :: rest => .ok (.null, rest)
    | 't' :: 'r' :: 'u' :: 'e' :: rest => .ok (.bool true, rest)
    | 'f' :: 'a' :: 'l' :: 's' :: 'e' :: rest => .ok (.bool false, rest)
    | '"' :: rest =>
      (match scanStrChars rest [] with
       | .ok (s, r) => .ok (.str s, r)
       | .error e => .error e)
    | '[' :: rest =>
      (match skipWs rest with
       | ']' :: r2 => .ok (.arr [], r2)
       | other =>
         match parseItems fuel other with
         | .ok (vs, r2) => .ok (.arr vs, r2)
         | .error e => .error e)
    | '\x7b' :: rest =>
      (match skipWs rest with
       | '\x7d' :: r2 => .ok (.obj [], r2)
       | other =>
         match parseMembers fuel other with
         | .ok (ms, r2) => .ok (.obj ms, r2)
         | .error e => .error e)
    | other => scanNum other

/-- Parse the comma-separated elements of a non-empty JSON array,
consuming the closing bracket. -/
def parseItems : Nat → List Char → Except JsErr (List Json × List Char)
  | 0, _ => .error (.parseErr "Maximum call stack size exceeded")
  | Nat.succ fuel, cs =>
    match parseVal fuel cs with
    | .error e => .error e
    | .ok (v, rest) =>
      match skipWs rest with
      | ',' :: r2 =>
        (match parseItems fuel r2 with
         | .ok (vs, r3) => .ok (v :: vs, r3)
         | .error e => .error e)
      | ']' :: r2 => .ok ([v], r2)
      | _ => .error (.parseErr "Expected comma or bracket in JSON array")

/-- Parse the comma-separated members of a non-empty JSON object,
consuming the closing brace.  Property names must be string literals —
an unquoted name is exactly the malformed-input shape the claims
exercise. -/
def parseMembers : Nat → List Char → Except JsErr (List (String × Json) × List Char)
  | 0, _ => .error (.parseErr "Maximum call stack size exceeded")
  | Nat.succ fuel, cs =>
    match skipWs cs with
    | '"' :: rest =>
      (match scanStrChars rest [] with
       | .error e => .error e
       | .ok (k, r1) =>
         match skipWs r1 with
         | ':' :: r2 =>
           (match parseVal fuel r2 with
            | .error e => .error e
            | .ok (v, r3) =>
              match skipWs r3 with
              | ',' :: r4 =>
                (match parseMembers fuel r4 with
                 | .ok (ms, r5) => .ok ((k, v) :: ms, r5)
                 | .error e => .error e)
              | '\x7d' :: r4 => .ok ([(k, v)], r4)
              | _ => .error (.parseErr "Expected comma or brace in JSON object"))
         | _ => .error (.parseErr "Expected colon in JSON object"))
    | _ => .error (.parseErr "Expected property name or brace in JSON")

end

/-- Model of the host platform's `JSON.parse` (an external collaborator
of the library), restricted to the grammar subset the claims exercise:
objects, arrays, string literals without escapes, integer numerals and
the three literals.  A `.error` result stands for the `SyntaxError` the
host parser THROWS. -/
def jsonParse (text : String) : Except JsErr Json :=
  match parseVal (text.data.length + 1) text.data with
  | .error e => .error e
  | .ok (v, rest) =>
    if (skipWs rest).isEmpty then .ok v
    else .error (.parseErr "Unexpected non-whitespace character after JSON")

/-- Embedding of `readJSONFileWithCancel` (src/fs.js line 95):
`pipe(readFileWithCancel(cancel), map(JSON.parse))`.  The parse step
runs inside fluture's `map`, so a `SyntaxError` thrown by the parser
crashes the composed Future rather than rejecting it. -/
def readJSONFileWithCancel (cancel : Cancel) (x : String) : FutS Json :=
  flutureMap jsonParse (readFileWithCancel cancel x)

/-- Embedding of `readJSONFile` (src/fs.js line 113). -/
def readJSONFile : String → FutS Json :=
  readJSONFileWithCancel NO_OP

/-- Model of the external glob engine's entry point `glob(g, conf)` as
the repository observes it (src/fs.js line 136 and the expectation in
src/fs.spec.js): requesting synchronous mode from this callback-style
invocation throws `TypeError('callback provided to sync glob')`; any
other configuration resolves with the matching paths, supplied here by
an oracle for the engine.  A `.error` stands for a throw or promise
rejection of the engine. -/
def globModel (oracle : Conf → String → List String) (conf : Conf)
    (g : String) : Except JsErr (List String) :=
  if confBool "sync" conf then
    .error (.typeErr "callback provided to sync glob")
  else .ok (oracle conf g)

/-- Embedding of `readDirWithConfigAndCancel` (src/fs.js line 132): the
glob call runs inside `Future((bad, good) => ...)` under a `try`/`catch`
whose handler, like the promise's `.catch`, routes the error to the
Future's REJECTION channel `bad`. -/
def readDirWithConfigAndCancel (oracle : Conf → String → List String)
    (cancel : Cancel) (conf : Conf) (g : String) : Outcome (List String) :=
  match globModel oracle conf g with
  | .ok xs => .ok xs
  | .error e => .rejected e

/-- Embedding of `readDirWithConfig` (src/fs.js line 161). -/
def readDirWithConfig (oracle : Conf → String → List String) :
    Conf → String → Outcome (List String) :=
  readDirWithConfigAndCancel oracle NO_OP

deriving instance DecidableEq for Except

/-- Timed Future: the settled result of a read-only probe together with
the event-loop time at which it settles (drawn from a latency oracle).
This is the interpretation `findFile`'s races are proved against. -/
structure TFut (α : Type) where
  time : Nat
  result : Except JsErr α
deriving DecidableEq, Repr

/-- Fluture's `race`: the new Future settles with the outcome — success
OR failure — of whichever operand settles first; on a tie the left
operand, whose callbacks were registered first, wins. -/
def race (a b : TFut α) : TFut α :=
  if a.time ≤ b.time then a else b

/-- Fluture's `mapRej f` on a timed Future: transform the rejection
reason, leaving resolutions and the settle time alone. -/
def mapRejT (f : JsErr → JsErr) (a : TFut α) : TFut α :=
  { a with result :=
      match a.result with
      | .ok v => .ok v
      | .error e => .error (f e) }

/-- Embedding of ramda's `F`: the constant function returning the
boolean `false` (used to coerce every probe rejection's reason). -/
def ramdaF : JsErr → JsErr := fun _ => .jsBool false

/-- A JavaScript value that is either a Future or a plain value — the
shape flowing through `findFile`'s reduce, whose accumulator starts at
the caller-supplied default (any value) and thereafter holds Futures. -/
inductive FindAcc (α : Type) where
  | val (v : JsVal)
  | fut (f : TFut α)
deriving DecidableEq, Repr

/-- Embedding of fluture's `isFuture` test. -/
def isFutureA : FindAcc α → Bool
  | .fut _ => true
  | .val _ => false

/-- The resolution value of a settled `findFile` result, when it is a
Future that resolved. -/
def FindAcc.okResult? : FindAcc α → Option α
  | .fut f =>
    match f.result with
    | .ok v => some v
    | .error _ => none
  | .val _ => none

/-- Embedding of `findFile` (src/fs.js line 525):
`pipe(map(pipe(fn, mapRej(F))), reduce((a, b) => isFuture(a) ? race(a)(b) : b, def))`.
Each candidate's probe has its rejection reason coerced to `false` by
`mapRej(F)` — the rejection stays a rejection — and the probes are then
combined pairwise with `race`. -/
def findFile (fn : String → TFut α) (defv : FindAcc α) (x : List String) :
    FindAcc α :=
  (x.map (fun p => mapRejT ramdaF (fn p))).foldl
    (fun a b => if isFutureA a then
        match a with
        | .fut fa => .fut (race fa b)
        | .val _ => .fut b
      else .fut b)
    defv

/-- Timed interpretation of `readFileWithFormatAndCancel` (src/fs.js
line 72): the same settled result as the sequential interpretation, at
the probe's latency. -/
def readFileWithFormatAndCancelT (st : FS) (lat : String → Nat)
    (cancel : Cancel) (format : String) (x : String) : TFut String :=
  ⟨lat x,
   if x ∈ st.dirs then .error (.fsErr "EISDIR" x)
   else
     match fileContents st x with
     | some c => .ok c
     | none => .error (.fsErr "ENOENT" x)⟩

/-- Timed interpretation of `readFile` (src/fs.js line 81): the utf8,
no-op-cancellation specialization. -/
def readFileT (st : FS) (lat : String → Nat) : String → TFut String :=
  readFileWithFormatAndCancelT st lat NO_OP "utf8"

/-- Embedding of `readAnyOr` (src/fs.js line 532): the curried function
takes `def`, `format` and the candidate list, and its body is
`findFile(readFile, def, x)` — the `format` parameter does not occur in
the body. -/
def readAnyOr (st : FS) (lat : String → Nat) (defv : FindAcc String)
    (format : String) (x : List String) : FindAcc String :=
  findFile (readFileT st lat) defv x

/-- Embedding of `readAny` (src/fs.js line 536): `readAnyOr(null)`. -/
def readAny (st : FS) (lat : String → Nat) :
    String → List String → FindAcc String :=
  readAnyOr st lat (.val .nullv)

/-- Filesystem after unlinking each of the listed files in order (the
prefix of a batch removal that completed before a failure). -/
def removeAllFS (st : FS) (xs : List String) : FS :=
  xs.foldl removeFileFS st

/-- Concrete filesystem for the `findFile` race analysis: one readable
candidate holding `"data"`; every other path is missing. -/
def fsC1 : FS := ⟨[], [("ok.txt", "data")]⟩

/-- Latency oracle under which the missing candidate's probe settles
(with its coerced rejection) strictly before the readable candidate's
probe resolves. -/
def latC1 : String → Nat := fun p => if p = "ok.txt" then 2 else 1

/-- Concrete filesystem for the JSON-read analysis: one file holding
well-formed JSON and one holding malformed JSON. -/
def fsJson : FS :=
  ⟨[], [("good.json", "\x7b\"a\":1\x7d"), ("bad.json", "\x7ba:1")]⟩

/-! Helper lemmas about the string, filesystem and batch-removal
machinery, shared by the claim theorems below. -/

theorem lastSlashAux_eq_none_of_no_slash {cs : List Char} (h : '/' ∉ cs) :
    lastSlashAux cs = none := by
  induction cs with
  | nil => rfl
  | cons c rest ih =>
    have hc : c ≠ '/' := fun hq => h (hq ▸ List.mem_cons_self c rest)
    have hr : '/' ∉ rest := fun hq => h (List.mem_cons_of_mem c hq)
    simp [lastSlashAux, ih hr, hc]

theorem lastSlashAux_lt_length {cs : List Char} {i : Nat}
    (h : lastSlashAux cs = some i) : i < cs.length := by
  induction cs generalizing i with
  | nil => simp [lastSlashAux] at h
  | cons c rest ih =>
    unfold lastSlashAux at h
    cases hr : lastSlashAux rest with
    | some j =>
      rw [hr] at h
      cases h
      exact Nat.succ_lt_succ (ih hr)
    | none =>
      rw [hr] at h
      by_cases hc : c = '/'
      · simp [hc] at h
        cases h
        exact Nat.succ_pos _
      · simp [hc] at h

theorem no_slash_of_hasSlash_eq_false {p : String} (h : hasSlash p = false) :
    '/' ∉ p.data := by
  intro hmem
  have : p.data.any (fun c => c = '/') = true := by
    exact List.any_eq_true.mpr ⟨'/', hmem, by simp⟩
  rw [hasSlash] at h
  rw [this] at h
  cases h

theorem directoryOnly_of_no_slash {p : String} (h : hasSlash p = false) :
    directoryOnly p = String.mk p.data.dropLast := by
  unfold directoryOnly
  rw [lastSlashAux_eq_none_of_no_slash (no_slash_of_hasSlash_eq_false h)]

theorem string_eq_empty_iff {p : String} : p = "" ↔ p.data = [] := by
  cases p with
  | mk d =>
    constructor
    · intro h
      rw [h]
    · intro h
      have hd : d = [] := h
      rw [hd]

theorem directoryOnly_length_lt {p : String} (h : p ≠ "") :
    (directoryOnly p).data.length < p.data.length := by
  have hd : p.data ≠ [] := fun hq => h (string_eq_empty_iff.mpr hq)
  have hpos : 0 < p.data.length := List.length_pos.mpr hd
  unfold directoryOnly
  cases hls : lastSlashAux p.data with
  | some i =>
    have hi := lastSlashAux_lt_length hls
    simpa [List.length_take] using lt_of_le_of_lt (min_le_left i p.data.length) hi
  | none =>
    simpa [List.length_dropLast] using Nat.sub_lt hpos Nat.one_pos

theorem hasTrailingSlash_eq_false_of_no_slash {p : String}
    (h : hasSlash p = false) : hasTrailingSlash p = false := by
  unfold hasTrailingSlash
  cases hg : p.data.getLast? with
  | none => rfl
  | some c =>
    have hmem : c ∈ p.data := by
      rcases List.mem_getLast?_eq_getLast (by rw [hg]; rfl :
          c ∈ p.data.getLast?) with ⟨hne, hc⟩
      exact hc ▸ List.getLast_mem hne
    have : c ≠ '/' := fun hq => no_slash_of_hasSlash_eq_false h (hq ▸ hmem)
    simp [this]

theorem self_mem_ancestorsFuel (n : Nat) (p : String) :
    p ∈ ancestorsFuel n p := by
  cases n with
  | zero => exact List.mem_singleton.mpr rfl
  | succ m =>
    unfold ancestorsFuel
    by_cases h : hasSlash p
    · simp [h]
    · simp [h]

theorem mem_ancestors_self (p : String) : p ∈ ancestors p :=
  self_mem_ancestorsFuel _ _

theorem hasSlash_data_ne_nil {p : String} (h : hasSlash p = true) :
    p ≠ "" := by
  intro hq
  cases hq
  cases h

theorem mem_ancestorsFuel_length_le :
    ∀ (n : Nat) (p d : String), d ∈ ancestorsFuel n p →
      d.data.length ≤ p.data.length := by
  intro n
  induction n with
  | zero =>
    intro p d hd
    cases List.mem_singleton.mp hd
    exact le_refl _
  | succ m ih =>
    intro p d hd
    unfold ancestorsFuel at hd
    by_cases h : hasSlash p
    · rw [if_pos h] at hd
      rcases List.mem_cons.mp hd with h1 | h2
      · cases h1
        exact le_refl _
      · exact le_trans (ih _ _ h2)
          (le_of_lt (directoryOnly_length_lt (hasSlash_data_ne_nil h)))
    · rw [if_neg h] at hd
      cases List.mem_singleton.mp hd
      exact le_refl _

theorem mem_ancestors_length_le {p d : String} (hd : d ∈ ancestors p) :
    d.data.length ≤ p.data.length :=
  mem_ancestorsFuel_length_le _ _ _ hd

theorem lookup_setFileL_self (p c : String) (l : List (String × String)) :
    List.lookup p (setFileL p c l) = some c := by
  simp [setFileL, List.lookup]

theorem lookup_filter_keyNe_ne {x p : String} (hx : x ≠ p) :
    ∀ (l : List (String × String)),
      List.lookup x (l.filter (keyNe p)) = List.lookup x l := by
  intro l
  induction l with
  | nil => rfl
  | cons kv rest ih =>
    obtain ⟨k, v⟩ := kv
    rw [List.filter_cons]
    by_cases hk : k = p
    · rw [if_neg (by simp [keyNe, hk])]
      have hxk : x ≠ k := fun hq => hx (hq.trans hk)
      have hb : (x == k) = false := by simp [hxk]
      simp [List.lookup, hb, ih]
    · rw [if_pos (by simp [keyNe, hk])]
      by_cases hxk : x = k
      · simp [List.lookup, hxk]
      · have hb : (x == k) = false := by simp [hxk]
        simp [List.lookup, hb, ih]

theorem lookup_setFileL_ne {x p : String} (hx : x ≠ p) (c : String)
    (l : List (String × String)) :
    List.lookup x (setFileL p c l) = List.lookup x l := by
  have hb : (x == p) = false := by simp [hx]
  rw [setFileL]
  simp only [List.lookup, hb]
  exact lookup_filter_keyNe_ne hx l

theorem fileContents_setFile_self (st : FS) (p c : String) :
    fileContents (setFile st p c) p = some c := by
  simp [fileContents, setFile, lookup_setFileL_self]

theorem fileContents_setFile_ne {x p : String} (hx : x ≠ p) (st : FS)
    (c : String) : fileContents (setFile st p c) x = fileContents st x := by
  simp [fileContents, setFile, lookup_setFileL_ne hx]

theorem fileContents_removeFileFS_ne {x y : String} (hx : x ≠ y) (st : FS) :
    fileContents (removeFileFS st y) x = fileContents st x := by
  rw [fileContents, removeFileFS]
  exact lookup_filter_keyNe_ne hx st.files

theorem lookup_filter_keyNe_self (y : String) :
    ∀ (l : List (String × String)),
      List.lookup y (l.filter (keyNe y)) = none := by
  intro l
  induction l with
  | nil => rfl
  | cons kv rest ih =>
    obtain ⟨k, v⟩ := kv
    rw [List.filter_cons]
    by_cases hk : k = y
    · rw [if_neg (by simp [keyNe, hk])]
      exact ih
    · rw [if_pos (by simp [keyNe, hk])]
      have hyk : y ≠ k := fun hq => hk hq.symm
      have hb : (y == k) = false := by simp [hyk]
      simp [List.lookup, hb, ih]

theorem hasFileB_removeFileFS_self (st : FS) (y : String) :
    hasFileB (removeFileFS st y) y = false := by
  simp [hasFileB, fileContents, removeFileFS, lookup_filter_keyNe_self]

theorem hasFileB_removeFileFS_false {x y : String} {st : FS}
    (h : hasFileB st x = false) : hasFileB (removeFileFS st y) x = false := by
  by_cases hxy : x = y
  · cases hxy
    exact hasFileB_removeFileFS_self st x
  · rw [hasFileB, fileContents_removeFileFS_ne hxy]
    exact h

theorem dirs_removeFileFS (st : FS) (y : String) :
    (removeFileFS st y).dirs = st.dirs := rfl

theorem dirs_removeAllFS (xs : List String) :
    ∀ (st : FS), (removeAllFS st xs).dirs = st.dirs := by
  induction xs with
  | nil => intro st; rfl
  | cons x rest ih =>
    intro st
    show (removeAllFS (removeFileFS st x) rest).dirs = st.dirs
    rw [ih (removeFileFS st x)]
    rfl

theorem hasFileB_removeAllFS_false (xs : List String) :
    ∀ (st : FS) (x : String), hasFileB st x = false →
      hasFileB (removeAllFS st xs) x = false := by
  induction xs with
  | nil => intro st x h; exact h
  | cons y rest ih =>
    intro st x h
    exact ih (removeFileFS st y) x (hasFileB_removeFileFS_false h)

theorem hasFileB_removeAllFS_mem (xs : List String) :
    ∀ (st : FS) (x : String), x ∈ xs →
      hasFileB (removeAllFS st xs) x = false := by
  induction xs with
  | nil => intro st x h; cases h
  | cons y rest ih =>
    intro st x h
    rcases List.mem_cons.mp h with rfl | h2
    · exact hasFileB_removeAllFS_false rest _ _ (hasFileB_removeFileFS_self st x)
    · exact ih (removeFileFS st y) x h2

theorem ne_empty_of_directoryOnly_ne_empty {p : String}
    (hdir : directoryOnly p ≠ "") : p ≠ "" := by
  intro hq
  apply hdir
  rw [hq]
  rfl

theorem any_hasFileB_ancestors_false {st : FS} {q : String}
    (habs : ∀ d ∈ ancestors q, d ∉ st.dirs ∧ hasFileB st d = false) :
    ((ancestors q).any fun d => hasFileB st d) = false := by
  rw [List.any_eq_false]
  intro d hd
  rw [(habs d hd).2]
  simp

theorem not_mem_ancestors_directoryOnly {p : String} (hpne : p ≠ "") :
    p ∉ ancestors (directoryOnly p) := by
  intro hmem
  have h1 := mem_ancestors_length_le hmem
  have h2 := directoryOnly_length_lt hpne
  omega

theorem existsF_absent {st : FS} {q : String} (h1 : q ∉ st.dirs)
    (h2 : hasFileB st q = false) :
    existsF q st = (.rejected (.fsErr "ENOENT" q), st) := by
  unfold existsF access
  rw [if_neg]
  intro hor
  rcases hor with hq | hq
  · exact h1 hq
  · rw [h2] at hq
    cases hq

theorem existsF_dir_present {st : FS} {q : String} (h1 : q ∈ st.dirs) :
    existsF q st = (.ok true, st) := by
  unfold existsF access
  rw [if_pos (Or.inl h1)]

theorem mkdirp_fresh {st : FS} {q : String} (hq : q ≠ "")
    (habs : ∀ d ∈ ancestors q, d ∉ st.dirs ∧ hasFileB st d = false) :
    mkdirp q st = (.ok q, { st with dirs := ancestors q ++ st.dirs }) := by
  unfold mkdirp mkdir mkdirWithCancel
  rw [if_neg hq]
  rw [show confBool "recursive" [("recursive", JsVal.b true)] = true from rfl]
  rw [if_pos rfl, if_neg]
  rw [any_hasFileB_ancestors_false habs]
  intro hq
  cases hq

theorem chainF_ok {m : FutS α} {st st' : FS} {a : α} (f : α → FutS β)
    (h : m st = (.ok a, st')) : chainF f m st = f a st' := by
  unfold chainF
  rw [h]

theorem chainRejF_ok {m : FutS α} {st st' : FS} {a : α} (f : JsErr → FutS α)
    (h : m st = (.ok a, st')) : chainRejF f m st = (.ok a, st') := by
  unfold chainRejF
  rw [h]

theorem chainRejF_rejected {m : FutS α} {st st' : FS} {e : JsErr}
    (f : JsErr → FutS α) (h : m st = (.rejected e, st')) :
    chainRejF f m st = f e st' := by
  unfold chainRejF
  rw [h]

theorem asDyn_ok {m : FutS α} {st st' : FS} {a : α} (inj : α → JsVal)
    (h : m st = (.ok a, st')) : asDyn inj m st = (.ok (inj a), st') := by
  unfold asDyn
  rw [h]

theorem asDyn_rejected {m : FutS α} {st st' : FS} {e : JsErr} (inj : α → JsVal)
    (h : m st = (.rejected e, st')) : asDyn inj m st = (.rejected e, st') := by
  unfold asDyn
  rw [h]

theorem parentOf_eq_some {p d : String} (hpo : parentOf p = some d) :
    d = directoryOnly p := by
  unfold parentOf at hpo
  by_cases hs : hasSlash p
  · rw [if_pos hs] at hpo
    cases hpo
    rfl
  · rw [if_neg hs] at hpo
    cases hpo

theorem writeFile_with_parent_present {st : FS} {p c : String}
    (hpne : p ≠ "") (hts : hasTrailingSlash p = false) (hpd : p ∉ st.dirs)
    (hparent : ∀ d, parentOf p = some d → hasFileB st d = false ∧ d ∈ st.dirs) :
    writeFile p c st = (.ok c, setFile st p c) := by
  unfold writeFile writeFileWithConfig writeFileWithConfigAndCancel
  rw [if_neg hpne]
  rw [if_neg (by rw [hts]; intro hq; cases hq)]
  rw [if_neg hpd]
  cases hpo : parentOf p with
  | none => rfl
  | some d =>
    rcases hparent d hpo with ⟨hdf, hdd⟩
    simp [hdf, hdd]

theorem autoPath_first_run (st : FS) (p c : String)
    (hdir : directoryOnly p ≠ "")
    (hts : hasTrailingSlash p = false)
    (habs : ∀ d ∈ ancestors (directoryOnly p), d ∉ st.dirs ∧ hasFileB st d = false)
    (hpd : p ∉ st.dirs) :
    writeFileWithAutoPath p c st
      = (.ok c, ⟨ancestors (directoryOnly p) ++ st.dirs, setFileL p c st.files⟩) := by
  have hpne : p ≠ "" := ne_empty_of_directoryOnly_ne_empty hdir
  have hdmem := habs (directoryOnly p) (mem_ancestors_self _)
  have hpd2 : p ∉ (FS.mk (ancestors (directoryOnly p) ++ st.dirs) st.files).dirs := by
    intro hmem
    rcases List.mem_append.mp hmem with hq | hq
    · exact not_mem_ancestors_directoryOnly hpne hq
    · exact hpd hq
  have hpar2 : ∀ d, parentOf p = some d →
      hasFileB (FS.mk (ancestors (directoryOnly p) ++ st.dirs) st.files) d = false ∧
      d ∈ (FS.mk (ancestors (directoryOnly p) ++ st.dirs) st.files).dirs := by
    intro d hpo
    rw [parentOf_eq_some hpo]
    constructor
    · exact hdmem.2
    · exact List.mem_append.mpr (Or.inl (mem_ancestors_self _))
  have e1 : asDyn JsVal.b (existsF (directoryOnly p)) st
      = (.rejected (.fsErr "ENOENT" (directoryOnly p)), st) :=
    asDyn_rejected JsVal.b (existsF_absent hdmem.1 hdmem.2)
  have e3 : asDyn JsVal.s (mkdirp (directoryOnly p)) st
      = (.ok (JsVal.s (directoryOnly p)),
         FS.mk (ancestors (directoryOnly p) ++ st.dirs) st.files) :=
    asDyn_ok JsVal.s (mkdirp_fresh hdir habs)
  have e2 : chainRejF (fun _ => asDyn JsVal.s (mkdirp (directoryOnly p)))
      (asDyn JsVal.b (existsF (directoryOnly p))) st
      = (.ok (JsVal.s (directoryOnly p)),
         FS.mk (ancestors (directoryOnly p) ++ st.dirs) st.files) :=
    (chainRejF_rejected _ e1).trans e3
  have e4 : writeFileWithAutoPath p c st
      = writeFile p c (FS.mk (ancestors (directoryOnly p) ++ st.dirs) st.files) :=
    chainF_ok _ e2
  rw [e4]
  exact @writeFile_with_parent_present
    (FS.mk (ancestors (directoryOnly p) ++ st.dirs) st.files) p c hpne hts hpd2 hpar2

theorem autoPath_second_run (st : FS) (p c : String)
    (hdir : directoryOnly p ≠ "")
    (hts : hasTrailingSlash p = false)
    (hdd : directoryOnly p ∈ st.dirs)
    (hdf : hasFileB st (directoryOnly p) = false)
    (hpd : p ∉ st.dirs) :
    writeFileWithAutoPath p c st = (.ok c, setFile st p c) := by
  have hpne : p ≠ "" := ne_empty_of_directoryOnly_ne_empty hdir
  have e1 : asDyn JsVal.b (existsF (directoryOnly p)) st = (.ok (JsVal.b true), st) :=
    asDyn_ok JsVal.b (existsF_dir_present hdd)
  have e2 : chainRejF (fun _ => asDyn JsVal.s (mkdirp (directoryOnly p)))
      (asDyn JsVal.b (existsF (directoryOnly p))) st = (.ok (JsVal.b true), st) :=
    chainRejF_ok _ e1
  have e4 : writeFileWithAutoPath p c st = writeFile p c st :=
    chainF_ok _ e2
  rw [e4]
  apply writeFile_with_parent_present hpne hts hpd
  intro d hpo
  rw [parentOf_eq_some hpo]
  exact ⟨hdf, hdd⟩

theorem removeFile_present {st : FS} {options : Conf} {cancel : Cancel}
    {x : String} (h : hasFileB st x = true) :
    removeFileWithConfigAndCancel cancel options x st = (.ok x, removeFileFS st x) := by
  unfold removeFileWithConfigAndCancel
  rw [h]
  rfl

theorem removeFile_missing_noforce {st : FS} {options : Conf} {cancel : Cancel}
    {x : String} (h1 : hasFileB st x = false) (h2 : x ∉ st.dirs)
    (h3 : confBool "force" options = false) :
    removeFileWithConfigAndCancel cancel options x st
      = (.rejected (.fsErr "ENOENT" x), st) := by
  unfold removeFileWithConfigAndCancel
  rw [h1]
  rw [if_neg (by intro hq; cases hq)]
  rw [if_neg h2]
  rw [h3]
  rfl

theorem parallelRun_cons_rejected {f : FutS α} {fs : List (FutS α)}
    {st st' : FS} {e : JsErr} (lim : JsVal)
    (h : f st = (.rejected e, st')) :
    parallelRun lim (f :: fs) st = (.rejected e, st') := by
  unfold parallelRun
  simp only [h]

theorem parallelRun_cons_ok_rejected {f : FutS α} {fs : List (FutS α)}
    {st st' st'' : FS} {a : α} {e : JsErr} (lim : JsVal)
    (h1 : f st = (.ok a, st'))
    (h2 : parallelRun lim fs st' = (.rejected e, st'')) :
    parallelRun lim (f :: fs) st = (.rejected e, st'') := by
  unfold parallelRun
  simp only [h1, h2]

theorem parallelRun_removal_fail (cancel : Cancel) (options : Conf)
    (lim : JsVal) (bad : String) (ys : List String)
    (hforce : confBool "force" options = false) :
    ∀ (xs : List String) (st : FS),
      (∀ x ∈ xs, hasFileB st x = true) → xs.Nodup →
      hasFileB st bad = false → bad ∉ st.dirs →
      parallelRun lim
          ((xs ++ bad :: ys).map (removeFileWithConfigAndCancel cancel options)) st
        = (.rejected (.fsErr "ENOENT" bad), removeAllFS st xs) := by
  intro xs
  induction xs with
  | nil =>
    intro st hxs hnd hbf hbd
    exact parallelRun_cons_rejected lim (removeFile_missing_noforce hbf hbd hforce)
  | cons x rest ih =>
    intro st hxs hnd hbf hbd
    have hx : hasFileB st x = true := hxs x (List.mem_cons_self x rest)
    have hnd2 := List.nodup_cons.mp hnd
    have hrest : ∀ y ∈ rest, hasFileB (removeFileFS st x) y = true := by
      intro y hy
      have hyx : y ≠ x := fun hq => hnd2.1 (hq ▸ hy)
      rw [hasFileB, fileContents_removeFileFS_ne hyx]
      exact hxs y (List.mem_cons_of_mem x hy)
    exact parallelRun_cons_ok_rejected lim (removeFile_present hx)
      (ih (removeFileFS st x) hrest hnd2.2 (hasFileB_removeFileFS_false hbf) hbd)

/-! Claim theorems.  Each theorem (with its witness or counterexample)
settles one claim of the specification against the embedded code. -/

/-- C7: for every probe function and every default value, `findFile`
applied to an empty candidate list immediately produces the supplied
default value itself — the reduce over zero mapped candidates returns
its initial accumulator, so no probe computation is built and no I/O is
performed (in particular `findFile(readFile, null, [])` yields `null`). -/
theorem findFile_empty_yields_default (α : Type) (fn : String → TFut α)
    (defv : FindAcc α) : findFile fn defv [] = defv := rfl

/-- C9: `readAnyOr(def, format, x)` ignores its `format` argument
entirely — any two formats denote the same computation — and the probe
it hands to `findFile` is always the utf8 `readFile`
(`readFileWithFormatAndCancel($, 'utf8')` with the no-op cancellation),
so the result never depends on the supplied format. -/
theorem readAnyOr_ignores_format (st : FS) (lat : String → Nat)
    (defv : FindAcc String) (f1 f2 : String) (x : List String) :
    readAnyOr st lat defv f1 x = readAnyOr st lat defv f2 x ∧
    readAnyOr st lat defv f1 x
      = findFile (readFileWithFormatAndCancelT st lat NO_OP "utf8") defv x :=
  ⟨rfl, rfl⟩

/-- C2, evaluation at the failing input: the batch removal forwards
`without(['parallel'], conf)` as the per-file configuration, but ramda's
`without` on an object drops the entries whose VALUE occurs in the list,
so the `parallel` KEY survives in the forwarded configuration (first two
conjuncts); only an entry whose value is the string "parallel" would be
dropped (third conjunct).  The spec's claim that `parallel` is stripped
before forwarding describes the evident intent, not the code. -/
theorem without_parallel_keeps_parallel_key :
    ramdaWithoutObj [.s "parallel"] [("parallel", .n 10), ("force", .b true)]
      = [("parallel", JsVal.n 10), ("force", JsVal.b true)] ∧
    confLookup "parallel"
        (ramdaWithoutObj [.s "parallel"] [("parallel", .n 10), ("force", .b true)])
      = some (JsVal.n 10) ∧
    ramdaWithoutObj [.s "parallel"] [("mode", .s "parallel")] = [] := by
  refine ⟨rfl, rfl, rfl⟩

/-- C8: requesting synchronous mode from the callback-style glob call
settles the computation on its failure channel — it neither throws out
of the wrapper nor hangs — with the engine's descriptive
`TypeError('callback provided to sync glob')`, for every pattern and
regardless of the other options or of what the engine would match. -/
theorem readDir_sync_mode_rejects (oracle : Conf → String → List String)
    (conf : Conf) (g : String) (h : confBool "sync" conf = true) :
    readDirWithConfig oracle conf g
      = .rejected (.typeErr "callback provided to sync glob") := by
  unfold readDirWithConfig readDirWithConfigAndCancel globModel
  rw [h]
  rfl

/-- Witness for C8 at a concrete configuration and pattern. -/
theorem readDir_sync_mode_rejects_witness :
    confBool "sync" [("sync", JsVal.b true)] = true ∧
    readDirWithConfig (fun _ _ => []) [("sync", JsVal.b true)] "src/*"
      = .rejected (.typeErr "callback provided to sync glob") :=
  ⟨rfl, readDir_sync_mode_rejects (fun _ _ => []) [("sync", JsVal.b true)] "src/*" rfl⟩

/-- C1, counterexample: with the readable candidate `ok.txt` (contents
"data") and the missing candidate settling strictly earlier (latency 1
against 2), `findFile(readFile, null, [ok.txt, missing.txt])` settles as
a REJECTION carrying `false`: `mapRej(F)` only renames the rejection
reason, and `race` keeps whichever settlement comes first, failure
included.  The claim that the contents of the readable candidate are
produced whenever at least one candidate is readable is therefore false
at this input. -/
theorem findFile_fast_failure_cex :
    findFile (readFileT fsC1 latC1) (.val .nullv) ["ok.txt", "missing.txt"]
      = .fut ⟨1, .error (.jsBool false)⟩ ∧
    (findFile (readFileT fsC1 latC1) (.val .nullv)
        ["ok.txt", "missing.txt"]).okResult? = none :=
  ⟨rfl, rfl⟩

/-- C1 (amended): `findFile(readFile, null, [validPath, missingPath])`
yields the contents of `validPath` regardless of the order of the two
candidates in the list PROVIDED the valid candidate's probe settles
strictly before the missing candidate's probe; each candidate's failure
is mapped to the value `false` on the rejection channel (not recovered),
and the race settles with the first settled outcome whether it is a
success or a failure. -/
theorem findFile_valid_first_settler_wins (st : FS) (lat : String → Nat)
    (v m c : String) (defv : JsVal)
    (hv : fileContents st v = some c) (hvd : v ∉ st.dirs)
    (hm : fileContents st m = none) (hlt : lat v < lat m) :
    findFile (readFileT st lat) (.val defv) [v, m] = .fut ⟨lat v, .ok c⟩ ∧
    findFile (readFileT st lat) (.val defv) [m, v] = .fut ⟨lat v, .ok c⟩ := by
  have hb1 : mapRejT ramdaF (readFileT st lat v) = ⟨lat v, .ok c⟩ := by
    unfold readFileT readFileWithFormatAndCancelT mapRejT
    rw [if_neg hvd, hv]
  have hb2 : mapRejT ramdaF (readFileT st lat m)
      = ⟨lat m, .error (.jsBool false)⟩ := by
    unfold readFileT readFileWithFormatAndCancelT mapRejT ramdaF
    by_cases hmd : m ∈ st.dirs
    · rw [if_pos hmd]
    · rw [if_neg hmd, hm]
  constructor
  · show FindAcc.fut (race (mapRejT ramdaF (readFileT st lat v))
        (mapRejT ramdaF (readFileT st lat m))) = _
    rw [hb1, hb2]
    unfold race
    rw [if_pos (le_of_lt hlt)]
  · show FindAcc.fut (race (mapRejT ramdaF (readFileT st lat m))
        (mapRejT ramdaF (readFileT st lat v))) = _
    rw [hb1, hb2]
    unfold race
    rw [if_neg (not_le.mpr hlt)]

/-- Witness for the amended C1: under a latency oracle where the valid
candidate settles first, both candidate orders resolve with its
contents. -/
theorem findFile_valid_first_settler_wins_witness :
    findFile (readFileT fsC1 (fun p => if p = "ok.txt" then 1 else 5))
        (.val .nullv) ["ok.txt", "missing.txt"] = .fut ⟨1, .ok "data"⟩ ∧
    findFile (readFileT fsC1 (fun p => if p = "ok.txt" then 1 else 5))
        (.val .nullv) ["missing.txt", "ok.txt"] = .fut ⟨1, .ok "data"⟩ :=
  findFile_valid_first_settler_wins fsC1
    (fun p => if p = "ok.txt" then 1 else 5) "ok.txt" "missing.txt" "data"
    .nullv (by decide) (by decide) (by decide) (by decide)

/-- C10, counterexample: the claim asserts that for slashless paths the
result of `directoryOnly` is never an empty string, but on the
single-character bare filename "a" the slice up to `lastIndexOf('/')`,
which is `-1`, is exactly the empty string. -/
theorem directoryOnly_single_char_empty_cex :
    directoryOnly "a" = "" ∧ hasSlash "a" = false := by
  exact ⟨rfl, rfl⟩

/-- C10 (amended): for every path string with no forward slash,
`directoryOnly` returns the path with its final character removed —
which IS the empty string when the path has fewer than two characters —
and it splits only on '/', never on the platform separator.
Consequently `writeFileWithAutoPath` on a bare filename of length at
least two probes and, when absent, recursively creates a directory
named by the filename minus its last character before writing (and the
write itself succeeds, landing in the working directory). -/
theorem directoryOnly_bare_name_drops_last (p c : String)
    (h : hasSlash p = false) (h2 : 2 ≤ p.data.length) :
    directoryOnly p = String.mk p.data.dropLast ∧
    (writeFileWithAutoPath p c emptyFS).1 = .ok c ∧
    String.mk p.data.dropLast ∈ (writeFileWithAutoPath p c emptyFS).2.dirs := by
  have hdo : directoryOnly p = String.mk p.data.dropLast :=
    directoryOnly_of_no_slash h
  have hdir : directoryOnly p ≠ "" := by
    rw [hdo]
    intro hq
    have hnil : p.data.dropLast = [] := string_eq_empty_iff.mp hq
    have hlen : p.data.dropLast.length = p.data.length - 1 :=
      List.length_dropLast _
    rw [hnil] at hlen
    simp only [List.length_nil] at hlen
    omega
  have hts := hasTrailingSlash_eq_false_of_no_slash h
  have habs : ∀ d ∈ ancestors (directoryOnly p),
      d ∉ emptyFS.dirs ∧ hasFileB emptyFS d = false := by
    intro d _
    exact ⟨List.not_mem_nil d, rfl⟩
  have hpd : p ∉ emptyFS.dirs := List.not_mem_nil p
  have hrun := autoPath_first_run emptyFS p c hdir hts habs hpd
  refine ⟨hdo, ?_, ?_⟩
  · rw [hrun]
  · rw [hrun]
    show String.mk p.data.dropLast ∈ ancestors (directoryOnly p) ++ emptyFS.dirs
    rw [← hdo]
    exact List.mem_append.mpr (Or.inl (mem_ancestors_self _))

/-- Witness for the amended C10 at a concrete bare filename. -/
theorem directoryOnly_bare_name_drops_last_witness :
    directoryOnly "foo.txt" = String.mk "foo.txt".data.dropLast ∧
    (writeFileWithAutoPath "foo.txt" "x" emptyFS).1 = .ok "x" ∧
    String.mk "foo.txt".data.dropLast
      ∈ (writeFileWithAutoPath "foo.txt" "x" emptyFS).2.dirs :=
  directoryOnly_bare_name_drops_last "foo.txt" "x" (by decide) (by decide)

theorem flutureMap_fn_ok {m : FutS α} {st st' : FS} {a : α} {b : β}
    (f : α → Except JsErr β) (h1 : m st = (.ok a, st')) (h2 : f a = .ok b) :
    flutureMap f m st = (.ok b, st') := by
  unfold flutureMap
  simp only [h1, h2]

theorem flutureMap_fn_throws {m : FutS α} {st st' : FS} {a : α} {e : JsErr}
    (f : α → Except JsErr β) (h1 : m st = (.ok a, st')) (h2 : f a = .error e) :
    flutureMap f m st = (.crashed e, st') := by
  unfold flutureMap
  simp only [h1, h2]

/-- C3, counterexample: on the malformed file the composed JSON read
settles as a CRASH (the `SyntaxError` thrown by the parser inside
fluture's `map`, observable only through `forkCatch`), not as a
settlement of the failure channel; the claim that it fails through the
computation's failure channel is therefore false at this input. -/
theorem readJSONFile_malformed_crashes_cex :
    (readJSONFile "bad.json" fsJson).1
      = .crashed (.parseErr "Expected property name or brace in JSON") ∧
    ((readJSONFile "bad.json" fsJson).1).isRejected = false :=
  ⟨rfl, rfl⟩

/-- C3 (amended): running `readJSONFile` on a file containing
`{"a":1}` succeeds with the mapping `{a: 1}`; running it on a file with
malformed JSON makes the composed computation CRASH with the parser's
error — the thrown `SyntaxError` is not a filesystem error and does not
settle the failure channel, because `map(JSON.parse)` does not catch. -/
theorem readJSONFile_wellformed_ok_malformed_crashes (st : FS) (p q : String)
    (hp : fileContents st p = some "\x7b\"a\":1\x7d") (hpd : p ∉ st.dirs)
    (hq : fileContents st q = some "\x7ba:1") (hqd : q ∉ st.dirs) :
    (readJSONFile p st).1 = .ok (.obj [("a", .num 1)]) ∧
    (readJSONFile q st).1
      = .crashed (.parseErr "Expected property name or brace in JSON") ∧
    ((readJSONFile q st).1).isRejected = false := by
  have hro : readFileWithCancel NO_OP p st = (.ok "\x7b\"a\":1\x7d", st) := by
    unfold readFileWithCancel readFileWithFormatAndCancel
    rw [if_neg hpd, hp]
  have hrq : readFileWithCancel NO_OP q st = (.ok "\x7ba:1", st) := by
    unfold readFileWithCancel readFileWithFormatAndCancel
    rw [if_neg hqd, hq]
  have hgood : readJSONFile p st = (.ok (.obj [("a", .num 1)]), st) :=
    flutureMap_fn_ok jsonParse hro rfl
  have hbad : readJSONFile q st
      = (.crashed (.parseErr "Expected property name or brace in JSON"), st) :=
    flutureMap_fn_throws jsonParse hrq rfl
  refine ⟨?_, ?_, ?_⟩
  · rw [hgood]
  · rw [hbad]
  · rw [hbad]
    rfl

/-- Witness for the amended C3 at the concrete two-file filesystem. -/
theorem readJSONFile_wellformed_ok_malformed_crashes_witness :
    (readJSONFile "good.json" fsJson).1 = .ok (.obj [("a", .num 1)]) ∧
    (readJSONFile "bad.json" fsJson).1
      = .crashed (.parseErr "Expected property name or brace in JSON") ∧
    ((readJSONFile "bad.json" fsJson).1).isRejected = false :=
  readJSONFile_wellformed_ok_malformed_crashes fsJson "good.json" "bad.json"
    rfl (by decide) rfl (by decide)

/-- C4, counterexample: on the single-character bare filename "a", with
no ancestor directory missing (there are none), the computation FAILS:
the derived parent is the empty string (the path minus its final
character), its existence probe rejects, and the recovering recursive
directory creation of `""` rejects with `ENOENT`, which the write stage
never runs after.  The claim that `writeFileWithAutoPath(p, c)` succeeds
for every path is therefore false at this input. -/
theorem writeFileWithAutoPath_single_char_fails_cex :
    (writeFileWithAutoPath "a" "x" emptyFS).1 = .rejected (.fsErr "ENOENT" "") ∧
    ((writeFileWithAutoPath "a" "x" emptyFS).1).isRejected = true :=
  ⟨rfl, rfl⟩

/-- C4 (amended): for every path `p` whose derived parent string
`directoryOnly p` is nonempty and which does not end in a slash,
`writeFileWithAutoPath(p, c)` succeeds and yields `c` even when every
ancestor directory of `p` is initially absent — it derives the parent,
runs the existence check, recovers from its failure by recursively
creating the directory chain, and then writes the file — and a second
call with the same `p` (ancestors now present) also succeeds and yields
`c`. -/
theorem writeFileWithAutoPath_creates_and_again (st : FS) (p c : String)
    (hdir : directoryOnly p ≠ "")
    (hts : hasTrailingSlash p = false)
    (habs : ∀ d ∈ ancestors (directoryOnly p), d ∉ st.dirs ∧ hasFileB st d = false)
    (hpd : p ∉ st.dirs) :
    (writeFileWithAutoPath p c st).1 = .ok c ∧
    (writeFileWithAutoPath p c ((writeFileWithAutoPath p c st).2)).1 = .ok c := by
  have h1 := autoPath_first_run st p c hdir hts habs hpd
  have hdmem := habs (directoryOnly p) (mem_ancestors_self _)
  have hpne : p ≠ "" := ne_empty_of_directoryOnly_ne_empty hdir
  have hdp : directoryOnly p ≠ p := by
    intro hq
    have := directoryOnly_length_lt hpne
    rw [hq] at this
    omega
  have hdd2 : directoryOnly p
      ∈ (FS.mk (ancestors (directoryOnly p) ++ st.dirs) (setFileL p c st.files)).dirs :=
    List.mem_append.mpr (Or.inl (mem_ancestors_self _))
  have hdf2 : hasFileB
      (FS.mk (ancestors (directoryOnly p) ++ st.dirs) (setFileL p c st.files))
      (directoryOnly p) = false := by
    show (List.lookup (directoryOnly p) (setFileL p c st.files)).isSome = false
    rw [lookup_setFileL_ne hdp]
    exact hdmem.2
  have hpd2 : p ∉ (FS.mk (ancestors (directoryOnly p) ++ st.dirs)
      (setFileL p c st.files)).dirs := by
    intro hmem
    rcases List.mem_append.mp hmem with hmq | hmq
    · exact not_mem_ancestors_directoryOnly hpne hmq
    · exact hpd hmq
  have h2 := autoPath_second_run
    (FS.mk (ancestors (directoryOnly p) ++ st.dirs) (setFileL p c st.files))
    p c hdir hts hdd2 hdf2 hpd2
  constructor
  · rw [h1]
  · rw [h1]
    show (writeFileWithAutoPath p c
      (FS.mk (ancestors (directoryOnly p) ++ st.dirs) (setFileL p c st.files))).1 = _
    rw [h2]

/-- Witness for the amended C4: a nested path whose ancestors are all
absent, written twice. -/
theorem writeFileWithAutoPath_creates_and_again_witness :
    (writeFileWithAutoPath "d/e/f.txt" "hello" emptyFS).1 = .ok "hello" ∧
    (writeFileWithAutoPath "d/e/f.txt" "hello"
        ((writeFileWithAutoPath "d/e/f.txt" "hello" emptyFS).2)).1 = .ok "hello" :=
  writeFileWithAutoPath_creates_and_again emptyFS "d/e/f.txt" "hello"
    (by decide) (by decide) (by decide) (by decide)

/-- C5: for valid target paths (nonempty, not naming a directory, with
an existing parent directory), running `writeFile(p, c)` and then
`readFile(p)` yields `c`, and the write operation itself resolves with
the written content `c` as its success value, not merely an
acknowledgement. -/
theorem write_then_read_roundtrip (st : FS) (p c : String)
    (hpne : p ≠ "") (hts : hasTrailingSlash p = false) (hpd : p ∉ st.dirs)
    (hparent : ∀ d, parentOf p = some d → hasFileB st d = false ∧ d ∈ st.dirs) :
    (writeFile p c st).1 = .ok c ∧
    (readFile p (writeFile p c st).2).1 = .ok c := by
  have hw := @writeFile_with_parent_present st p c hpne hts hpd hparent
  constructor
  · rw [hw]
  · rw [hw]
    show (readFile p (setFile st p c)).1 = .ok c
    unfold readFile readFileWithCancel readFileWithFormatAndCancel
    have hpd2 : p ∉ (setFile st p c).dirs := hpd
    rw [if_neg hpd2]
    rw [fileContents_setFile_self]

/-- Witness for C5 at a concrete bare filename in the working
directory. -/
theorem write_then_read_roundtrip_witness :
    (writeFile "f.txt" "hi" emptyFS).1 = .ok "hi" ∧
    (readFile "f.txt" (writeFile "f.txt" "hi" emptyFS).2).1 = .ok "hi" :=
  write_then_read_roundtrip emptyFS "f.txt" "hi" (by decide) (by decide)
    (by decide)
    (by
      intro d hd
      have hnone : parentOf "f.txt" = none := by decide
      rw [hnone] at hd
      cases hd)

/-- C6: a batch removal of N paths issues removal computations for
exactly N paths (first conjunct); the concurrency bound handed to the
bounded-parallel combinator is `conf.parallel` when present and 10
otherwise (second and third conjuncts); and when the removals of the
leading paths succeed but one path's removal fails, the batch settles as
a whole on the failure channel while the already-completed removals stay
removed — they are not undone (last two conjuncts). -/
theorem removeFiles_batch_spec (cancel : Cancel) (conf : Conf) (st : FS)
    (xs ys : List String) (bad : String)
    (hforce : confBool "force" (ramdaWithoutObj [.s "parallel"] conf) = false)
    (hxs : ∀ x ∈ xs, hasFileB st x = true) (hnd : xs.Nodup)
    (hbf : hasFileB st bad = false) (hbd : bad ∉ st.dirs) :
    ((xs ++ bad :: ys).map (removeFileWithConfigAndCancel cancel
        (ramdaWithoutObj [.s "parallel"] conf))).length
      = (xs ++ bad :: ys).length ∧
    (∀ v, confLookup "parallel" conf = some v → removalParallelism conf = v) ∧
    (confLookup "parallel" conf = none → removalParallelism conf = .n 10) ∧
    removeFilesWithConfigAndCancel cancel conf (xs ++ bad :: ys) st
      = (.rejected (.fsErr "ENOENT" bad), removeAllFS st xs) ∧
    (∀ x ∈ xs, hasFileB (removeAllFS st xs) x = false) := by
  refine ⟨List.length_map _ _, ?_, ?_, ?_, ?_⟩
  · intro v hv
    unfold removalParallelism ramdaPropOr
    rw [hv]
  · intro hv
    unfold removalParallelism ramdaPropOr
    rw [hv]
  · exact parallelRun_removal_fail cancel _ _ bad ys hforce xs st hxs hnd hbf hbd
  · intro x hx
    exact hasFileB_removeAllFS_mem xs st x hx

/-- Witness for C6: removing `["a", "c", "b"]` where "a" and "b" exist
but "c" does not, under the default removal configuration. -/
theorem removeFiles_batch_spec_witness :
    removeFilesWithConfigAndCancel NO_OP DEFAULT_REMOVAL_CONFIG ["a", "c", "b"]
        ⟨[], [("a", "1"), ("b", "2")]⟩
      = (.rejected (.fsErr "ENOENT" "c"),
         removeAllFS ⟨[], [("a", "1"), ("b", "2")]⟩ ["a"]) :=
  (removeFiles_batch_spec NO_OP DEFAULT_REMOVAL_CONFIG
      ⟨[], [("a", "1"), ("b", "2")]⟩ ["a"] ["b"] "c"
      (by decide) (by decide) (by decide) (by decide) (by decide)).2.2.2.1

end Destined
